import Mathlib

/-!
Verification of the hotspot-aggregation core of the event-spark-map widget.

The embedding models the pure logic of the two component variants
(src/hooks/useHotspots.ts and src/components/HotspotMap.tsx):

- grid sizing and grid-bucket aggregation (getGridSize, aggregateToHotspots);
- the bounds/time admission filter (isInsideBounds plus the per-record
  checks of fetchEvents);
- the presentation mapping (getHotspotColor, getHotspotRadius);
- coordinate normalization (clampLat, normalizeLng, fixCoords), with the
  JavaScript remainder operator modelled exactly (truncated division);
- per-record processing of fetched RTDB records (parse, time filter,
  DEMO_POINT hardwiring) and the component's error/hotspot state updates.

Numbers are modelled as exact rationals. The JavaScript Map used by
aggregateToHotspots is keyed by the string "cellX,cellY"; since the
printed form of an integer contains no comma, that key is in bijection
with the pair (cellX, cellY), so the model keys cells by ℤ × ℤ directly.
JavaScript Map preserves insertion order, modelled by an association
list with in-place update (insertPoint).
-/

namespace EventSparkMap

/-- A raw event point, the `{lat, lng}` objects pushed into the
aggregation input list. -/
structure Point where
  lat : ℚ
  lng : ℚ
deriving DecidableEq

/-- One displayed cluster marker, as produced by aggregateToHotspots. -/
structure Hotspot where
  lat : ℚ
  lng : ℚ
  count : ℕ
deriving DecidableEq

/-- The running per-cell accumulator of aggregateToHotspots:
`{ totalLat, totalLng, count }`. -/
structure CellAcc where
  totalLat : ℚ
  totalLng : ℚ
  count : ℕ
deriving DecidableEq

/-- Viewport bounds `{north, south, east, west}`. -/
structure MapBounds where
  north : ℚ
  south : ℚ
  east : ℚ
  west : ℚ
deriving DecidableEq

/-- Grid cell size based on zoom level (identical in both variants):
`if (zoom >= 15) return 0.002; if (zoom >= 12) return 0.005; return 0.01;`. -/
def getGridSize (zoom : ℚ) : ℚ :=
  if 15 ≤ zoom then 0.002 else if 12 ≤ zoom then 0.005 else 0.01

/-- The grid cell a point falls into:
`cellX = Math.floor(lng / gridSize); cellY = Math.floor(lat / gridSize)`.
The pair (cellX, cellY) is the content of the string key
"cellX,cellY" used by the JavaScript Map. -/
def cellIndex (gridSize : ℚ) (p : Point) : ℤ × ℤ :=
  (⌊p.lng / gridSize⌋, ⌊p.lat / gridSize⌋)

/-- One loop iteration of aggregateToHotspots: `cells.get(key)` followed by
either the in-place `+=` update or `cells.set(key, {totalLat: lat, ...})`.
A JavaScript Map keeps first-insertion order, so the update rewrites the
existing entry in place and a fresh key is appended at the end. -/
def insertPoint (cells : List ((ℤ × ℤ) × CellAcc)) (key : ℤ × ℤ) (p : Point) :
    List ((ℤ × ℤ) × CellAcc) :=
  match cells with
  | [] => [(key, ⟨p.lat, p.lng, 1⟩)]
  | (k, c) :: rest =>
    if k = key then (k, ⟨c.totalLat + p.lat, c.totalLng + p.lng, c.count + 1⟩) :: rest
    else (k, c) :: insertPoint rest key p

/-- The `for (const p of points)` loop of aggregateToHotspots, producing the
populated cell map. -/
def buildCells (points : List Point) (gridSize : ℚ) : List ((ℤ × ℤ) × CellAcc) :=
  points.foldl (fun cells p => insertPoint cells (cellIndex gridSize p) p) []

/-- Grid-bucket aggregation (identical in both variants): bucket the points
by cell, then map each cell to
`{ lat: totalLat / count, lng: totalLng / count, count }`. -/
def aggregateToHotspots (points : List Point) (zoom : ℚ) : List Hotspot :=
  (buildCells points (getGridSize zoom)).map fun kc =>
    ⟨kc.2.totalLat / (kc.2.count : ℚ), kc.2.totalLng / (kc.2.count : ℚ), kc.2.count⟩

/-- Lookup of a key in the association-list model of the JavaScript Map
(`cells.get(key)`). -/
def lookupCell (cells : List ((ℤ × ℤ) × CellAcc)) (k : ℤ × ℤ) : Option CellAcc :=
  match cells with
  | [] => none
  | (k₀, c) :: rest => if k₀ = k then some c else lookupCell rest k

/-- The input points that fall into grid cell k. -/
def membersOf (gridSize : ℚ) (k : ℤ × ℤ) (points : List Point) : List Point :=
  points.filter fun p => decide (cellIndex gridSize p = k)

/-- The accumulator value a list of member points sums to. -/
def cellSummary (ps : List Point) : CellAcc :=
  ⟨(ps.map Point.lat).sum, (ps.map Point.lng).sum, ps.length⟩

/-- The accumulator value lookupCell must yield for a cell: none when no
point fell into it, otherwise the sums and the count of its members. -/
def summaryOf (gridSize : ℚ) (k : ℤ × ℤ) (points : List Point) : Option CellAcc :=
  if membersOf gridSize k points = [] then none
  else some (cellSummary (membersOf gridSize k points))

/-- The coarse cell that contains a fine cell when the cell size doubles:
each edge index halves (floor division). -/
def keyHalve (k : ℤ × ℤ) : ℤ × ℤ :=
  (⌊(k.1 : ℚ) / 2⌋, ⌊(k.2 : ℚ) / 2⌋)

/-- Exact-bounds check of useHotspots.ts:
`lat >= bounds.south && lat <= bounds.north && lng >= bounds.west && lng <= bounds.east`. -/
def isInsideBounds (lat lng : ℚ) (bounds : MapBounds) : Bool :=
  decide (bounds.south ≤ lat) && decide (lat ≤ bounds.north) &&
    decide (bounds.west ≤ lng) && decide (lng ≤ bounds.east)

/-- The per-record admission test of fetchEvents in useHotspots.ts:
`if (!ts || ts.toDate() < startTime) continue;`
`if (!isInsideBounds(lat, lng, bounds)) continue;`
with none standing for a missing timestamp field. Timestamps are instants
in milliseconds. -/
def admitsEvent (lat lng : ℚ) (ts : Option ℤ) (bounds : MapBounds)
    (startInstant : ℤ) : Bool :=
  match ts with
  | none => false
  | some t => !decide (t < startInstant) && isInsideBounds lat lng bounds

/-- Marker fill color by count (HotspotMap.tsx). Per the on-screen legend,
"#ef4444" is the red 31+ bucket, "#f97316" the orange 11-30 bucket,
"#eab308" the yellow 4-10 bucket and "#22c55e" the green 1-3 bucket. -/
def getHotspotColor (count : ℕ) : String :=
  if 31 ≤ count then "#ef4444"
  else if 11 ≤ count then "#f97316"
  else if 4 ≤ count then "#eab308"
  else "#22c55e"

/-- Marker radius in pixels (HotspotMap.tsx):
`Math.max(8, zoom * 0.8) + Math.sqrt(count) * 4`. -/
noncomputable def getHotspotRadius (count zoom : ℝ) : ℝ :=
  max 8 (zoom * 0.8) + Real.sqrt count * 4

/-- Truncation toward zero, the rounding used by the JavaScript remainder
operator. -/
def ratTrunc (q : ℚ) : ℤ :=
  if 0 ≤ q then ⌊q⌋ else ⌈q⌉

/-- The JavaScript remainder `a % b`: `a - b * trunc(a / b)`, so the result
carries the sign of the dividend. -/
def jsMod (a b : ℚ) : ℚ :=
  a - b * (ratTrunc (a / b) : ℚ)

/-- Longitude normalization of HotspotMap.tsx:
`((lng + 180) % 360 + 360) % 360 - 180`. -/
def normalizeLng (lng : ℚ) : ℚ :=
  jsMod (jsMod (lng + 180) 360 + 360) 360 - 180

/-- Latitude clamping of HotspotMap.tsx: `Math.max(-90, Math.min(90, lat))`. -/
def clampLat (lat : ℚ) : ℚ :=
  max (-90) (min 90 lat)

/-- Coordinate fixing of HotspotMap.tsx: clamp the latitude, wrap the
longitude. -/
def fixCoords (lat lng : ℚ) : Point :=
  ⟨clampLat lat, normalizeLng lng⟩

/-- One raw record read from the RTDB `/events` path, after the JavaScript
field conversions. A coordinate is none when the field is missing or
`Number(...)` of it is not finite; `time` is the parsed instant of the
time string (none when missing or unparseable, cf. parseTimeToDate);
`ts` is the numeric millisecond field (none when missing or non-finite). -/
structure RtdbEvent where
  lat : Option ℚ
  lng : Option ℚ
  time : Option ℤ
  ts : Option ℤ
deriving DecidableEq

/-- The hardwired demo coordinate of HotspotMap.tsx. -/
def DEMO_POINT : Point :=
  ⟨21.492562427776477, 39.242159744145006⟩

/-- One iteration of the record loop in fetchEvents of HotspotMap.tsx:
`parseTimeToDate(data.ts) || parseTimeToDate(data.time)` selects the event
instant, a missing or stale instant skips the record, and an admitted
record pushes `fixCoords(DEMO_POINT.lat, DEMO_POINT.lng)` regardless of the
record's own coordinates (the demo hardwiring). -/
def processRtdbRecord (startTime : ℤ) (data : RtdbEvent) : Option Point :=
  match data.ts <|> data.time with
  | none => none
  | some eventDate =>
    if eventDate < startTime then none
    else some (fixCoords DEMO_POINT.lat DEMO_POINT.lng)

/-- The whole record loop of fetchEvents in HotspotMap.tsx: every record is
processed independently, skipped records contribute nothing, and no record
aborts the batch. -/
def rtdbPoints (startTime : ℤ) (records : List RtdbEvent) : List Point :=
  records.filterMap (processRtdbRecord startTime)

/-- One raw Firestore document of useHotspots.ts, after field reads:
a coordinate is none when the field is missing or not a finite number
(JavaScript comparisons with undefined or NaN are all false),
`ts` is none when the timestamp field is absent. -/
structure FirestoreRecord where
  lat : Option ℚ
  lng : Option ℚ
  ts : Option ℤ
deriving DecidableEq

/-- The bounds check as it behaves on possibly-missing numbers: any
comparison against undefined or NaN is false, so a malformed coordinate
fails isInsideBounds. -/
def jsInsideBounds (lat lng : Option ℚ) (bounds : MapBounds) : Bool :=
  match lat, lng with
  | some la, some ln => isInsideBounds la ln bounds
  | _, _ => false

/-- One iteration of the document loop in fetchEvents of useHotspots.ts:
`if (!ts || ts.toDate() < startTime) continue;` then
`if (!isInsideBounds(lat, lng, bounds)) continue;` then push `{lat, lng}`. -/
def processFirestoreRecord (bounds : MapBounds) (startTime : ℤ)
    (data : FirestoreRecord) : Option Point :=
  match data.ts with
  | none => none
  | some t =>
    if t < startTime then none
    else
      match data.lat, data.lng with
      | some la, some ln =>
        if isInsideBounds la ln bounds then some ⟨la, ln⟩ else none
      | _, _ => none

/-- The whole document loop of fetchEvents in useHotspots.ts. -/
def firestorePoints (bounds : MapBounds) (startTime : ℤ)
    (records : List FirestoreRecord) : List Point :=
  records.filterMap (processFirestoreRecord bounds startTime)

/-- Outcome of one refresh cycle, as seen by the component state:
a successful fetch carrying the admitted points and the zoom, a thrown
fetch error carrying its message, or the early return when the database
handle is null (carrying the module-level initError message, if any). -/
inductive FetchResult where
  | success (points : List Point) (zoom : ℚ)
  | failure (msg : String)
  | notConfigured (initMsg : Option String)
deriving DecidableEq

/-- Whether a refresh outcome is the successful one. -/
def FetchResult.isSuccess : FetchResult → Bool
  | .success _ _ => true
  | _ => false

/-- The component state touched by a refresh cycle: the displayed hotspot
set and the error string. -/
structure UIState where
  hotspots : List Hotspot
  error : Option String
deriving DecidableEq

/-- Mount-time state: no hotspots, error preloaded with the module-level
initError. -/
def initState (initErr : Option String) : UIState :=
  ⟨[], initErr⟩

/-- The state updates a refresh cycle performs (fetchEvents of
HotspotMap.tsx): success replaces the hotspot set with the fresh
aggregation and clears the error; a thrown error sets the error string and
touches nothing else; the not-configured early return sets
`initError || "Firebase RTDB not initialized"` and touches nothing else. -/
def applyFetch (s : UIState) (r : FetchResult) : UIState :=
  match r with
  | .success points zoom => ⟨aggregateToHotspots points zoom, none⟩
  | .failure msg => ⟨s.hotspots, some msg⟩
  | .notConfigured initMsg => ⟨s.hotspots, some (initMsg.getD "Firebase RTDB not initialized")⟩

/-- The disabled condition of the add-test-event button:
`disabled={!!error || isAdding}`. -/
def addTestDisabled (error : Option String) (isAdding : Bool) : Bool :=
  error.isSome || isAdding

/-- Loop invariant of aggregateToHotspots: after the already-processed
points, the cell map has pairwise-distinct keys and looking up any cell
yields exactly the summary of the processed points that fell into it. -/
def CellsInv (gridSize : ℚ) (processed : List Point)
    (cells : List ((ℤ × ℤ) × CellAcc)) : Prop :=
  (cells.map Prod.fst).Nodup ∧
    ∀ k, lookupCell cells k = summaryOf gridSize k processed

theorem lookupCell_isSome_iff_mem_keys (cells : List ((ℤ × ℤ) × CellAcc))
    (k : ℤ × ℤ) : (lookupCell cells k).isSome ↔ k ∈ cells.map Prod.fst := by
  induction cells with
  | nil => simp [lookupCell]
  | cons kc rest ih =>
    obtain ⟨k₀, c⟩ := kc
    by_cases h : k₀ = k
    · simp [lookupCell, h]
    · simp only [lookupCell, if_neg h, List.map_cons, List.mem_cons, ih]
      constructor
      · exact Or.inr
      · rintro (rfl | hm)
        · exact absurd rfl h
        · exact hm

theorem lookupCell_eq_some_of_mem (cells : List ((ℤ × ℤ) × CellAcc))
    (k : ℤ × ℤ) (c : CellAcc) (hnd : (cells.map Prod.fst).Nodup)
    (hmem : (k, c) ∈ cells) : lookupCell cells k = some c := by
  induction cells with
  | nil => simp at hmem
  | cons kc rest ih =>
    obtain ⟨k₀, c₀⟩ := kc
    simp only [List.map_cons, List.nodup_cons] at hnd
    rcases List.mem_cons.mp hmem with h | h
    · obtain ⟨rfl, rfl⟩ := Prod.mk.injEq .. ▸ h
      simp [lookupCell]
    · have hk : k₀ ≠ k := by
        rintro rfl
        exact hnd.1 (List.mem_map.mpr ⟨(k₀, c), h, rfl⟩)
      simp [lookupCell, hk, ih hnd.2 h]

theorem insertPoint_map_fst (cells : List ((ℤ × ℤ) × CellAcc))
    (key : ℤ × ℤ) (p : Point) :
    (insertPoint cells key p).map Prod.fst =
      if (lookupCell cells key).isSome then cells.map Prod.fst
      else cells.map Prod.fst ++ [key] := by
  induction cells with
  | nil => simp [insertPoint, lookupCell]
  | cons kc rest ih =>
    obtain ⟨k₀, c⟩ := kc
    by_cases h : k₀ = key
    · simp [insertPoint, lookupCell, h]
    · simp only [insertPoint, lookupCell, if_neg h, List.map_cons, ih]
      by_cases h2 : (lookupCell rest key).isSome <;> simp [h2]

theorem lookupCell_insertPoint_self_none (cells : List ((ℤ × ℤ) × CellAcc))
    (key : ℤ × ℤ) (p : Point) (h : lookupCell cells key = none) :
    lookupCell (insertPoint cells key p) key = some ⟨p.lat, p.lng, 1⟩ := by
  induction cells with
  | nil => simp [insertPoint, lookupCell]
  | cons kc rest ih =>
    obtain ⟨k₀, c⟩ := kc
    by_cases hk : k₀ = key
    · simp [lookupCell, hk] at h
    · simp only [lookupCell, if_neg hk] at h
      simp [insertPoint, lookupCell, hk, ih h]

theorem lookupCell_insertPoint_self_some (cells : List ((ℤ × ℤ) × CellAcc))
    (key : ℤ × ℤ) (p : Point) (c : CellAcc) (h : lookupCell cells key = some c) :
    lookupCell (insertPoint cells key p) key =
      some ⟨c.totalLat + p.lat, c.totalLng + p.lng, c.count + 1⟩ := by
  induction cells with
  | nil => simp [lookupCell] at h
  | cons kc rest ih =>
    obtain ⟨k₀, c₀⟩ := kc
    by_cases hk : k₀ = key
    · subst hk
      simp only [lookupCell] at h
      simp only [if_true, Option.some.injEq] at h
      subst h
      simp [insertPoint, lookupCell]
    · simp only [lookupCell, if_neg hk] at h
      simp [insertPoint, lookupCell, hk, ih h]

theorem lookupCell_insertPoint_ne (cells : List ((ℤ × ℤ) × CellAcc))
    (key k : ℤ × ℤ) (p : Point) (h : k ≠ key) :
    lookupCell (insertPoint cells key p) k = lookupCell cells k := by
  induction cells with
  | nil => simp [insertPoint, lookupCell, Ne.symm h]
  | cons kc rest ih =>
    obtain ⟨k₀, c⟩ := kc
    by_cases hk : k₀ = key
    · subst hk
      simp [insertPoint, lookupCell, Ne.symm h]
    · by_cases hk2 : k₀ = k
      · subst hk2
        simp [insertPoint, lookupCell, hk]
      · simp [insertPoint, lookupCell, hk, hk2, ih]

theorem membersOf_append_point (gs : ℚ) (k : ℤ × ℤ) (l : List Point) (p : Point) :
    membersOf gs k (l ++ [p]) =
      membersOf gs k l ++ if cellIndex gs p = k then [p] else [] := by
  by_cases h : cellIndex gs p = k <;> simp [membersOf, List.filter_append, h]

theorem cellSummary_append_point (ps : List Point) (p : Point) :
    cellSummary (ps ++ [p]) =
      ⟨(cellSummary ps).totalLat + p.lat, (cellSummary ps).totalLng + p.lng,
        (cellSummary ps).count + 1⟩ := by
  simp [cellSummary]

theorem cellsInv_insertPoint (gs : ℚ) (processed : List Point)
    (cells : List ((ℤ × ℤ) × CellAcc)) (p : Point)
    (h : CellsInv gs processed cells) :
    CellsInv gs (processed ++ [p]) (insertPoint cells (cellIndex gs p) p) := by
  obtain ⟨hnd, hlk⟩ := h
  constructor
  · rw [insertPoint_map_fst]
    by_cases hs : (lookupCell cells (cellIndex gs p)).isSome
    · simp [hs, hnd]
    · have hnm : cellIndex gs p ∉ cells.map Prod.fst := by
        rw [← lookupCell_isSome_iff_mem_keys]
        simp [hs]
      simp [hs, List.nodup_append, hnd, hnm]
  · intro k
    by_cases hk : k = cellIndex gs p
    · subst hk
      rcases ho : lookupCell cells (cellIndex gs p) with _ | c
      · have hm : membersOf gs (cellIndex gs p) processed = [] := by
          have := hlk (cellIndex gs p)
          rw [ho] at this
          by_contra hne
          simp [summaryOf, hne] at this
        rw [lookupCell_insertPoint_self_none _ _ _ ho]
        rw [summaryOf, membersOf_append_point, hm, if_pos rfl]
        simp [cellSummary]
      · have := hlk (cellIndex gs p)
        rw [ho] at this
        have hne : membersOf gs (cellIndex gs p) processed ≠ [] := by
          by_contra he
          simp [summaryOf, he] at this
        have hc : c = cellSummary (membersOf gs (cellIndex gs p) processed) := by
          simp [summaryOf, hne] at this
          exact this
        rw [lookupCell_insertPoint_self_some _ _ _ _ ho]
        rw [summaryOf, membersOf_append_point, if_pos rfl]
        have hne2 : membersOf gs (cellIndex gs p) processed ++ [p] ≠ [] := by
          simp
        rw [if_neg hne2]
        rw [cellSummary_append_point, hc]
    · rw [lookupCell_insertPoint_ne _ _ _ _ hk, hlk k]
      have hne : cellIndex gs p ≠ k := fun he => hk he.symm
      simp [summaryOf, membersOf_append_point, hne]

theorem cellsInv_foldl (gs : ℚ) (points : List Point) :
    ∀ (processed : List Point) (cells : List ((ℤ × ℤ) × CellAcc)),
      CellsInv gs processed cells →
      CellsInv gs (processed ++ points)
        (points.foldl (fun cs p => insertPoint cs (cellIndex gs p) p) cells) := by
  induction points with
  | nil => intro processed cells h; simpa using h
  | cons p rest ih =>
    intro processed cells h
    have h2 := cellsInv_insertPoint gs processed cells p h
    have h3 := ih (processed ++ [p]) _ h2
    simpa using h3

theorem buildCells_spec (points : List Point) (gs : ℚ) :
    CellsInv gs points (buildCells points gs) := by
  have h0 : CellsInv gs [] [] := by
    refine ⟨by simp, fun k => ?_⟩
    simp [lookupCell, summaryOf, membersOf]
  simpa using cellsInv_foldl gs points [] [] h0

theorem mem_buildCells_keys_iff (points : List Point) (gs : ℚ) (k : ℤ × ℤ) :
    k ∈ (buildCells points gs).map Prod.fst ↔ membersOf gs k points ≠ [] := by
  rw [← lookupCell_isSome_iff_mem_keys, (buildCells_spec points gs).2 k]
  by_cases h : membersOf gs k points = [] <;> simp [summaryOf, h]

theorem buildCells_entry_eq (points : List Point) (gs : ℚ)
    (kc : (ℤ × ℤ) × CellAcc) (h : kc ∈ buildCells points gs) :
    kc.2 = cellSummary (membersOf gs kc.1 points) ∧
      membersOf gs kc.1 points ≠ [] := by
  obtain ⟨hnd, hlk⟩ := buildCells_spec points gs
  have hmem : (kc.1, kc.2) ∈ buildCells points gs := by
    rwa [Prod.mk.eta]
  have hs := lookupCell_eq_some_of_mem _ kc.1 kc.2 hnd hmem
  rw [hlk kc.1] at hs
  by_cases hm : membersOf gs kc.1 points = []
  · simp [summaryOf, hm] at hs
  · simp only [summaryOf, if_neg hm, Option.some.injEq] at hs
    exact ⟨hs.symm, hm⟩

theorem insertPoint_counts_sum (cells : List ((ℤ × ℤ) × CellAcc))
    (key : ℤ × ℤ) (p : Point) :
    ((insertPoint cells key p).map fun kc => kc.2.count).sum =
      ((cells.map fun kc => kc.2.count).sum) + 1 := by
  induction cells with
  | nil => simp [insertPoint]
  | cons kc rest ih =>
    obtain ⟨k₀, c⟩ := kc
    by_cases h : k₀ = key <;> simp [insertPoint, h, ih] <;> omega

theorem insertPoint_length_le (cells : List ((ℤ × ℤ) × CellAcc))
    (key : ℤ × ℤ) (p : Point) :
    (insertPoint cells key p).length ≤ cells.length + 1 := by
  induction cells with
  | nil => simp [insertPoint]
  | cons kc rest ih =>
    obtain ⟨k₀, c⟩ := kc
    by_cases h : k₀ = key <;> simp [insertPoint, h] <;> omega

theorem insertPoint_count_pos (cells : List ((ℤ × ℤ) × CellAcc))
    (key : ℤ × ℤ) (p : Point) (h : ∀ kc ∈ cells, 1 ≤ kc.2.count) :
    ∀ kc ∈ insertPoint cells key p, 1 ≤ kc.2.count := by
  induction cells with
  | nil =>
    intro kc hkc
    simp [insertPoint] at hkc
    simp [hkc]
  | cons kc₀ rest ih =>
    obtain ⟨k₀, c⟩ := kc₀
    intro kc hkc
    by_cases hk : k₀ = key
    · simp only [insertPoint, if_pos hk, List.mem_cons] at hkc
      rcases hkc with rfl | hkc
      · simp
      · exact h kc (List.mem_cons_of_mem _ hkc)
    · simp only [insertPoint, if_neg hk, List.mem_cons] at hkc
      rcases hkc with rfl | hkc
      · exact h _ (List.mem_cons_self _ _)
      · exact ih (fun kc h2 => h kc (List.mem_cons_of_mem _ h2)) kc hkc

theorem foldl_counts_sum (gs : ℚ) (points : List Point) :
    ∀ cells : List ((ℤ × ℤ) × CellAcc),
      ((points.foldl (fun cs p => insertPoint cs (cellIndex gs p) p) cells).map
          fun kc => kc.2.count).sum =
        ((cells.map fun kc => kc.2.count).sum) + points.length := by
  induction points with
  | nil => intro cells; simp
  | cons p rest ih =>
    intro cells
    simp only [List.foldl_cons, List.length_cons, ih, insertPoint_counts_sum]
    omega

theorem foldl_length_le (gs : ℚ) (points : List Point) :
    ∀ cells : List ((ℤ × ℤ) × CellAcc),
      (points.foldl (fun cs p => insertPoint cs (cellIndex gs p) p) cells).length ≤
        cells.length + points.length := by
  induction points with
  | nil => intro cells; simp
  | cons p rest ih =>
    intro cells
    simp only [List.foldl_cons, List.length_cons]
    calc (rest.foldl (fun cs p => insertPoint cs (cellIndex gs p) p)
            (insertPoint cells (cellIndex gs p) p)).length
        ≤ (insertPoint cells (cellIndex gs p) p).length + rest.length := ih _
      _ ≤ cells.length + 1 + rest.length := by
          have := insertPoint_length_le cells (cellIndex gs p) p
          omega
      _ = cells.length + (rest.length + 1) := by omega

theorem foldl_count_pos (gs : ℚ) (points : List Point) :
    ∀ cells : List ((ℤ × ℤ) × CellAcc), (∀ kc ∈ cells, 1 ≤ kc.2.count) →
      ∀ kc ∈ points.foldl (fun cs p => insertPoint cs (cellIndex gs p) p) cells,
        1 ≤ kc.2.count := by
  induction points with
  | nil => intro cells h; simpa using h
  | cons p rest ih =>
    intro cells h
    simp only [List.foldl_cons]
    exact ih _ (insertPoint_count_pos _ _ _ h)

/-- C1: for every finite list of points and every zoom level,
aggregateToHotspots returns exactly one Hotspot per non-empty grid cell
(witnessed by a duplicate-free key list in bijection with the non-empty
cells; in particular the empty input yields an empty result), and the
Hotspot of a cell carries the number of input points whose cell index
matches as its count and the arithmetic means of their latitudes and
longitudes as its coordinates. -/
theorem aggregateToHotspots_one_hotspot_per_cell (points : List Point) (zoom : ℚ) :
    ∃ keys : List (ℤ × ℤ), keys.Nodup ∧
      (∀ k : ℤ × ℤ, k ∈ keys ↔ membersOf (getGridSize zoom) k points ≠ []) ∧
      aggregateToHotspots points zoom = keys.map (fun k =>
        { lat := ((membersOf (getGridSize zoom) k points).map Point.lat).sum /
            (((membersOf (getGridSize zoom) k points).length : ℕ) : ℚ)
          lng := ((membersOf (getGridSize zoom) k points).map Point.lng).sum /
            (((membersOf (getGridSize zoom) k points).length : ℕ) : ℚ)
          count := (membersOf (getGridSize zoom) k points).length }) ∧
      aggregateToHotspots [] zoom = [] := by
  refine ⟨(buildCells points (getGridSize zoom)).map Prod.fst,
    (buildCells_spec points _).1, mem_buildCells_keys_iff points _, ?_, rfl⟩
  rw [aggregateToHotspots, List.map_map]
  apply List.map_congr_left
  intro kc hkc
  obtain ⟨hsum, _⟩ := buildCells_entry_eq _ _ kc hkc
  simp only [Function.comp_apply]
  rw [hsum]
  simp [cellSummary]

/-- Witness for C1: the empty input yields the empty hotspot list. -/
theorem aggregateToHotspots_one_hotspot_per_cell_witness :
    aggregateToHotspots [] 10 = [] := by
  obtain ⟨keys, hnd, hiff, heq, hnil⟩ :=
    aggregateToHotspots_one_hotspot_per_cell [] 10
  exact hnil

/-- C9: the counts of the hotspots sum to the number of input points, every
hotspot has count at least 1, and there are no more hotspots than input
points. -/
theorem aggregateToHotspots_count_invariants (points : List Point) (zoom : ℚ) :
    ((aggregateToHotspots points zoom).map Hotspot.count).sum = points.length ∧
      (∀ h ∈ aggregateToHotspots points zoom, 1 ≤ h.count) ∧
      (aggregateToHotspots points zoom).length ≤ points.length := by
  refine ⟨?_, ?_, ?_⟩
  · rw [aggregateToHotspots, List.map_map]
    have := foldl_counts_sum (getGridSize zoom) points []
    simpa [buildCells, Function.comp] using this
  · intro h hh
    rw [aggregateToHotspots] at hh
    obtain ⟨kc, hkc, rfl⟩ := List.mem_map.mp hh
    exact foldl_count_pos (getGridSize zoom) points [] (by simp) kc hkc
  · rw [aggregateToHotspots, List.length_map]
    have := foldl_length_le (getGridSize zoom) points []
    simpa [buildCells] using this

/-- Witness for C9 at a concrete input: one point at the origin, zoom 10. -/
theorem aggregateToHotspots_count_invariants_witness :
    1 ≤ (Hotspot.mk 0 0 1).count ∧
      ((aggregateToHotspots [⟨0, 0⟩] 10).map Hotspot.count).sum = 1 := by
  have h1 : cellIndex (getGridSize 10) ⟨0, 0⟩ = (0, 0) := by
    norm_num [cellIndex, getGridSize]
  have hmem : (Hotspot.mk 0 0 1) ∈ aggregateToHotspots [⟨0, 0⟩] 10 := by
    simp [aggregateToHotspots, buildCells, insertPoint, h1]
  refine ⟨(aggregateToHotspots_count_invariants [⟨0, 0⟩] 10).2.1 _ hmem, ?_⟩
  simpa using (aggregateToHotspots_count_invariants [⟨0, 0⟩] 10).1

/-- C3: the grid cell edge length is 0.002 degrees for zoom at least 15,
0.005 degrees for zoom in [12, 15), and 0.01 degrees below 12. -/
theorem getGridSize_step_function (z : ℚ) :
    (15 ≤ z → getGridSize z = 0.002) ∧
      (12 ≤ z → z < 15 → getGridSize z = 0.005) ∧
      (z < 12 → getGridSize z = 0.01) := by
  refine ⟨fun h => ?_, fun h1 h2 => ?_, fun h => ?_⟩
  · simp [getGridSize, h]
  · rw [getGridSize, if_neg (by linarith), if_pos h1]
  · rw [getGridSize, if_neg (by linarith), if_neg (by linarith)]

/-- Witness for C3 at the concrete zooms 16, 13 and 10. -/
theorem getGridSize_step_function_witness :
    getGridSize 16 = 0.002 ∧ getGridSize 13 = 0.005 ∧ getGridSize 10 = 0.01 :=
  ⟨(getGridSize_step_function 16).1 (by norm_num),
   (getGridSize_step_function 13).2.1 (by norm_num) (by norm_num),
   (getGridSize_step_function 10).2.2 (by norm_num)⟩

/-- C5: the marker color is the red hex "#ef4444" for count at least 31,
the orange hex "#f97316" for 11 to 30, the yellow hex "#eab308" for 4 to
10, and the green hex "#22c55e" for count at most 3 (the color names are
the ones the component legend attaches to these buckets). -/
theorem getHotspotColor_thresholds (c : ℕ) :
    (31 ≤ c → getHotspotColor c = "#ef4444") ∧
      (11 ≤ c → c ≤ 30 → getHotspotColor c = "#f97316") ∧
      (4 ≤ c → c ≤ 10 → getHotspotColor c = "#eab308") ∧
      (c ≤ 3 → getHotspotColor c = "#22c55e") := by
  refine ⟨fun h => ?_, fun h1 h2 => ?_, fun h1 h2 => ?_, fun h => ?_⟩
  · simp [getHotspotColor, h]
  · rw [getHotspotColor, if_neg (by omega), if_pos h1]
  · rw [getHotspotColor, if_neg (by omega), if_neg (by omega), if_pos h1]
  · rw [getHotspotColor, if_neg (by omega), if_neg (by omega), if_neg (by omega)]

/-- Witness for C5 at the boundary counts 3, 4, 10, 11, 30 and 31. -/
theorem getHotspotColor_thresholds_witness :
    getHotspotColor 3 = "#22c55e" ∧ getHotspotColor 4 = "#eab308" ∧
      getHotspotColor 10 = "#eab308" ∧ getHotspotColor 11 = "#f97316" ∧
      getHotspotColor 30 = "#f97316" ∧ getHotspotColor 31 = "#ef4444" :=
  ⟨(getHotspotColor_thresholds 3).2.2.2 (by omega),
   (getHotspotColor_thresholds 4).2.2.1 (by omega) (by omega),
   (getHotspotColor_thresholds 10).2.2.1 (by omega) (by omega),
   (getHotspotColor_thresholds 11).2.1 (by omega) (by omega),
   (getHotspotColor_thresholds 30).2.1 (by omega) (by omega),
   (getHotspotColor_thresholds 31).1 (by omega)⟩

/-- C2: an event with a present timestamp is admitted by the bounds/time
filter exactly when its latitude lies between south and north, its
longitude between west and east, and its instant is at least the window
start; all four bounds comparisons and the time comparison are inclusive,
so an event exactly at the window start or exactly on a bounds edge is
admitted. -/
theorem admitsEvent_iff (lat lng : ℚ) (t : ℤ) (bounds : MapBounds)
    (startInstant : ℤ) :
    admitsEvent lat lng (some t) bounds startInstant = true ↔
      (bounds.south ≤ lat ∧ lat ≤ bounds.north ∧
        bounds.west ≤ lng ∧ lng ≤ bounds.east ∧ startInstant ≤ t) := by
  simp only [admitsEvent, isInsideBounds, Bool.and_eq_true, Bool.not_eq_true',
    decide_eq_true_eq, decide_eq_false_iff_not, not_lt]
  tauto

/-- Witness for C2: the spec's example event at (0.5, 0.5) one second after
the window start, inside the bounds north 1, south -1, east 1, west -1, is
admitted. -/
theorem admitsEvent_iff_witness :
    admitsEvent 0.5 0.5 (some 1) ⟨1, -1, 1, -1⟩ 0 = true :=
  (admitsEvent_iff 0.5 0.5 1 ⟨1, -1, 1, -1⟩ 0).mpr (by norm_num)

/-- C6: the marker radius is max(8, zoom times 0.8) plus sqrt(count) times
4 pixels, non-decreasing in zoom for a fixed count and strictly increasing
in count for a fixed zoom; the growth in count is sublinear in the sense
that quadrupling the count only doubles the count-dependent part of the
radius. -/
theorem getHotspotRadius_formula_monotone (c z : ℝ) (hc : 1 ≤ c) (hz : 0 ≤ z) :
    getHotspotRadius c z = max 8 (z * 0.8) + Real.sqrt c * 4 ∧
      (∀ z₂, z ≤ z₂ → getHotspotRadius c z ≤ getHotspotRadius c z₂) ∧
      (∀ c₂, c < c₂ → getHotspotRadius c z < getHotspotRadius c₂ z) ∧
      getHotspotRadius (4 * c) z - max 8 (z * 0.8) =
        2 * (getHotspotRadius c z - max 8 (z * 0.8)) := by
  refine ⟨rfl, fun z₂ hzz => ?_, fun c₂ hcc => ?_, ?_⟩
  · unfold getHotspotRadius
    have h1 : max 8 (z * 0.8) ≤ max 8 (z₂ * 0.8) :=
      max_le_max le_rfl (mul_le_mul_of_nonneg_right hzz (by norm_num))
    linarith
  · unfold getHotspotRadius
    have h1 : Real.sqrt c < Real.sqrt c₂ := Real.sqrt_lt_sqrt (by linarith) hcc
    have h2 : Real.sqrt c * 4 < Real.sqrt c₂ * 4 :=
      mul_lt_mul_of_pos_right h1 (by norm_num)
    linarith
  · unfold getHotspotRadius
    have h4 : Real.sqrt (4 * c) = 2 * Real.sqrt c := by
      rw [Real.sqrt_mul (by norm_num) c,
        show (4 : ℝ) = 2 ^ 2 by norm_num, Real.sqrt_sq (by norm_num)]
    rw [h4]
    ring

/-- Witness for C6 at count 1 and zoom 0, compared against zoom 2 and
count 4. -/
theorem getHotspotRadius_formula_monotone_witness :
    getHotspotRadius 1 0 = max 8 (0 * 0.8) + Real.sqrt 1 * 4 ∧
      getHotspotRadius 1 0 ≤ getHotspotRadius 1 2 ∧
      getHotspotRadius 1 0 < getHotspotRadius 4 0 := by
  obtain ⟨h1, h2, h3, _⟩ :=
    getHotspotRadius_formula_monotone 1 0 (by norm_num) (by norm_num)
  exact ⟨h1, h2 2 (by norm_num), h3 4 (by norm_num)⟩

theorem jsMod_gt_neg360 (a : ℚ) : -360 < jsMod a 360 := by
  simp only [jsMod, ratTrunc]
  split_ifs with h
  · push_cast
    linarith [Int.floor_le (a / 360)]
  · push_cast
    linarith [Int.ceil_lt_add_one (a / 360)]

theorem jsMod_pos_dividend (a : ℚ) (h : 0 ≤ a) :
    jsMod a 360 = a - 360 * ⌊a / 360⌋ := by
  simp only [jsMod, ratTrunc]
  rw [if_pos (by positivity)]

theorem normalizeLng_eq (lng : ℚ) :
    normalizeLng lng = (lng + 180) - 360 * ⌊(lng + 180) / 360⌋ - 180 := by
  have h1 : normalizeLng lng = jsMod (jsMod (lng + 180) 360 + 360) 360 - 180 := rfl
  set y := lng + 180 with hy
  have hr : jsMod y 360 = y - 360 * (ratTrunc (y / 360) : ℚ) := rfl
  have hpos : 0 ≤ jsMod y 360 + 360 := by linarith [jsMod_gt_neg360 y]
  rw [h1, jsMod_pos_dividend _ hpos]
  have harg : (jsMod y 360 + 360) / 360 =
      y / 360 + ((1 - ratTrunc (y / 360) : ℤ) : ℚ) := by
    rw [hr]; push_cast; ring
  rw [harg, Int.floor_add_int, hr]
  push_cast
  ring

theorem normalizeLng_mem (lng : ℚ) :
    -180 ≤ normalizeLng lng ∧ normalizeLng lng < 180 := by
  rw [normalizeLng_eq]
  have h1 := Int.floor_le ((lng + 180) / 360)
  have h2 := Int.lt_floor_add_one ((lng + 180) / 360)
  constructor <;> linarith

/-- C10: fixCoords clamps the latitude into [-90, 90], wraps the longitude
into [-180, 180), and leaves any coordinate pair already in those ranges
unchanged. -/
theorem fixCoords_ranges_and_identity (lat lng : ℚ) :
    -90 ≤ (fixCoords lat lng).lat ∧ (fixCoords lat lng).lat ≤ 90 ∧
      -180 ≤ (fixCoords lat lng).lng ∧ (fixCoords lat lng).lng < 180 ∧
      (-90 ≤ lat → lat ≤ 90 → -180 ≤ lng → lng < 180 →
        fixCoords lat lng = ⟨lat, lng⟩) := by
  refine ⟨le_max_left _ _, ?_, (normalizeLng_mem lng).1, (normalizeLng_mem lng).2,
    fun h1 h2 h3 h4 => ?_⟩
  · exact max_le (by norm_num) (min_le_left _ _)
  · have hlat : clampLat lat = lat := by
      rw [clampLat, min_eq_right h2, max_eq_right h1]
    have hlng : normalizeLng lng = lng := by
      rw [normalizeLng_eq]
      have hfl : ⌊(lng + 180) / 360⌋ = 0 := by
        rw [Int.floor_eq_zero_iff]
        constructor
        · rw [le_div_iff (by norm_num)]
          linarith
        · rw [div_lt_iff (by norm_num)]
          linarith
      rw [hfl]
      ring
    rw [fixCoords, hlat, hlng]

/-- Witness for C10: an in-range coordinate pair is returned unchanged. -/
theorem fixCoords_ranges_and_identity_witness : fixCoords 10 20 = ⟨10, 20⟩ :=
  (fixCoords_ranges_and_identity 10 20).2.2.2.2
    (by norm_num) (by norm_num) (by norm_num) (by norm_num)

theorem floor_div_two (q : ℚ) : ⌊q / 2⌋ = ⌊((⌊q⌋ : ℤ) : ℚ) / 2⌋ := by
  have h1 := Int.floor_le q
  have h2 := Int.lt_floor_add_one q
  rcases Int.even_or_odd ⌊q⌋ with ⟨m, hm⟩ | ⟨m, hm⟩
  · have hc : ((⌊q⌋ : ℤ) : ℚ) = (m : ℚ) + (m : ℚ) := by exact_mod_cast hm
    have hL : ⌊q / 2⌋ = m := by
      rw [Int.floor_eq_iff]
      push_cast
      constructor <;> linarith
    have hR : ⌊((⌊q⌋ : ℤ) : ℚ) / 2⌋ = m := by
      rw [Int.floor_eq_iff]
      push_cast
      constructor <;> linarith
    rw [hL, hR]
  · have hc : ((⌊q⌋ : ℤ) : ℚ) = 2 * (m : ℚ) + 1 := by exact_mod_cast hm
    have hL : ⌊q / 2⌋ = m := by
      rw [Int.floor_eq_iff]
      push_cast
      constructor <;> linarith
    have hR : ⌊((⌊q⌋ : ℤ) : ℚ) / 2⌋ = m := by
      rw [Int.floor_eq_iff]
      push_cast
      constructor <;> linarith
    rw [hL, hR]

theorem cellIndex_coarsen (p : Point) :
    cellIndex 0.01 p = keyHalve (cellIndex 0.005 p) := by
  have h1 : p.lng / (0.01 : ℚ) = p.lng / (0.005 : ℚ) / 2 := by
    rw [div_div]; norm_num
  have h2 : p.lat / (0.01 : ℚ) = p.lat / (0.005 : ℚ) / 2 := by
    rw [div_div]; norm_num
  simp only [cellIndex, keyHalve]
  rw [h1, h2, floor_div_two (p.lng / (0.005 : ℚ)), floor_div_two (p.lat / (0.005 : ℚ))]

theorem buildCells_length_le (pts : List Point) (g₁ g₂ : ℚ)
    (f : ℤ × ℤ → ℤ × ℤ) (hf : ∀ p : Point, cellIndex g₁ p = f (cellIndex g₂ p)) :
    (buildCells pts g₁).length ≤ (buildCells pts g₂).length := by
  have hn1 := (buildCells_spec pts g₁).1
  have hn2 := (buildCells_spec pts g₂).1
  have hlen1 : (buildCells pts g₁).length =
      ((buildCells pts g₁).map Prod.fst).toFinset.card := by
    rw [List.toFinset_card_of_nodup hn1, List.length_map]
  have hlen2 : (buildCells pts g₂).length =
      ((buildCells pts g₂).map Prod.fst).toFinset.card := by
    rw [List.toFinset_card_of_nodup hn2, List.length_map]
  rw [hlen1, hlen2]
  have hsub : ((buildCells pts g₁).map Prod.fst).toFinset ⊆
      (((buildCells pts g₂).map Prod.fst).toFinset).image f := by
    intro k hk
    rw [List.mem_toFinset, mem_buildCells_keys_iff] at hk
    obtain ⟨p, hp⟩ := List.exists_mem_of_ne_nil _ hk
    rw [membersOf, List.mem_filter] at hp
    obtain ⟨hpp, hpk⟩ := hp
    rw [decide_eq_true_eq] at hpk
    rw [Finset.mem_image]
    refine ⟨cellIndex g₂ p, ?_, by rw [← hf p, hpk]⟩
    rw [List.mem_toFinset, mem_buildCells_keys_iff]
    intro hemp
    have hpm : p ∈ membersOf g₂ (cellIndex g₂ p) pts := by
      rw [membersOf, List.mem_filter]
      exact ⟨hpp, by simp⟩
    rw [hemp] at hpm
    simp at hpm
  calc ((buildCells pts g₁).map Prod.fst).toFinset.card
      ≤ ((((buildCells pts g₂).map Prod.fst).toFinset).image f).card :=
        Finset.card_le_card hsub
    _ ≤ ((buildCells pts g₂).map Prod.fst).toFinset.card := Finset.card_image_le

/-- Counterexample to C4 as stated: the two points with longitudes 0.0049
and 0.0051 fall into two distinct 0.005-degree cells at zoom 12 but into
the same 0.002-degree cell at zoom 15, so raising the zoom across the 15
threshold shrinks the hotspot count from 2 to 1 (0.002 does not evenly
divide 0.005, so the finer grid is not a refinement of the coarser one). -/
theorem aggregateToHotspots_zoom_mono_counterexample :
    ¬ ((aggregateToHotspots [⟨0, 49/10000⟩, ⟨0, 51/10000⟩] 12).length ≤
        (aggregateToHotspots [⟨0, 49/10000⟩, ⟨0, 51/10000⟩] 15).length) := by
  have h12a : cellIndex (getGridSize 12) ⟨0, 49/10000⟩ = (0, 0) := by
    simp only [cellIndex, getGridSize]
    norm_num
  have h12b : cellIndex (getGridSize 12) ⟨0, 51/10000⟩ = (1, 0) := by
    simp only [cellIndex, getGridSize]
    norm_num
  have h15a : cellIndex (getGridSize 15) ⟨0, 49/10000⟩ = (2, 0) := by
    simp only [cellIndex, getGridSize]
    norm_num
  have h15b : cellIndex (getGridSize 15) ⟨0, 51/10000⟩ = (2, 0) := by
    simp only [cellIndex, getGridSize]
    norm_num
  have hA : (aggregateToHotspots [⟨0, 49/10000⟩, ⟨0, 51/10000⟩] 12).length = 2 := by
    simp [aggregateToHotspots, buildCells, insertPoint, h12a, h12b]
    decide
  have hB : (aggregateToHotspots [⟨0, 49/10000⟩, ⟨0, 51/10000⟩] 15).length = 1 := by
    simp [aggregateToHotspots, buildCells, insertPoint, h15a, h15b]
  intro hle
  rw [hA, hB] at hle
  omega

/-- C4 amended: for a fixed input, the hotspot count is non-decreasing in
zoom as long as both zooms stay below the 15 threshold (covering the 12
threshold, where the 0.005-degree cells evenly subdivide the 0.01-degree
cells); across the 15 threshold the claim fails, because 0.002 does not
evenly divide 0.005 (see the counterexample). -/
theorem aggregateToHotspots_length_mono_below_15 (points : List Point)
    (z₁ z₂ : ℚ) (h12 : z₁ ≤ z₂) (h15 : z₂ < 15) :
    (aggregateToHotspots points z₁).length ≤
      (aggregateToHotspots points z₂).length := by
  rw [aggregateToHotspots, aggregateToHotspots, List.length_map, List.length_map]
  by_cases hz1 : 12 ≤ z₁
  · have hg : getGridSize z₁ = getGridSize z₂ := by
      rw [(getGridSize_step_function z₁).2.1 hz1 (by linarith),
        (getGridSize_step_function z₂).2.1 (by linarith) h15]
    rw [hg]
  · by_cases hz2 : 12 ≤ z₂
    · rw [(getGridSize_step_function z₁).2.2 (by linarith),
        (getGridSize_step_function z₂).2.1 hz2 h15]
      exact buildCells_length_le points 0.01 0.005 keyHalve cellIndex_coarsen
    · have hg : getGridSize z₁ = getGridSize z₂ := by
        rw [(getGridSize_step_function z₁).2.2 (by linarith),
          (getGridSize_step_function z₂).2.2 (by linarith)]
      rw [hg]

/-- Witness for the amended C4 at the concrete zooms 10 and 13. -/
theorem aggregateToHotspots_length_mono_below_15_witness :
    (10 : ℚ) ≤ 13 ∧ (13 : ℚ) < 15 ∧
      (aggregateToHotspots [⟨0, 0⟩] 10).length ≤
        (aggregateToHotspots [⟨0, 0⟩] 13).length :=
  ⟨by norm_num, by norm_num,
    aggregateToHotspots_length_mono_below_15 [⟨0, 0⟩] 10 13
      (by norm_num) (by norm_num)⟩

/-- C7, evaluated at the failing input: in the RTDB variant a record with
missing coordinates but a fresh timestamp is NOT skipped — the demo
hardwiring pushes the fixed DEMO_POINT for it, so the malformed record
contributes a point to aggregation, contrary to the claim (and to the
commented-out real-coordinate handling in the source). The other parts of
the claim do hold and are recorded alongside: a record with no parseable
timestamp is skipped, the Firestore variant skips a record with a missing
coordinate via the bounds check, and a skipped record does not abort the
rest of the batch. -/
theorem rtdb_malformed_coords_still_contribute :
    processRtdbRecord 0 ⟨none, none, none, some 5⟩ =
        some (fixCoords DEMO_POINT.lat DEMO_POINT.lng) ∧
      rtdbPoints 0 [⟨none, none, none, some 5⟩] =
        [fixCoords DEMO_POINT.lat DEMO_POINT.lng] ∧
      processRtdbRecord 0 ⟨some 1, some 1, none, none⟩ = none ∧
      processFirestoreRecord ⟨1, -1, 1, -1⟩ 0 ⟨none, some 0, some 5⟩ = none ∧
      rtdbPoints 0 [⟨some 1, some 1, none, none⟩, ⟨none, none, none, some 5⟩] =
        [fixCoords DEMO_POINT.lat DEMO_POINT.lng] := by
  refine ⟨?_, ?_, rfl, rfl, ?_⟩ <;>
    simp [processRtdbRecord, rtdbPoints]

theorem foldl_no_success_hotspots (results : List FetchResult) :
    ∀ s : UIState, (∀ r ∈ results, r.isSuccess = false) →
      (results.foldl applyFetch s).hotspots = s.hotspots := by
  induction results with
  | nil => intro s _; rfl
  | cons r rest ih =>
    intro s h
    simp only [List.foldl_cons]
    rw [ih _ fun r₂ h₂ => h r₂ (List.mem_cons_of_mem _ h₂)]
    have hr := h r (List.mem_cons_self _ _)
    cases r with
    | success ps z => simp [FetchResult.isSuccess] at hr
    | failure m => rfl
    | notConfigured im => rfl

/-- Counterexample to C8 as stated: after a successful refresh has
displayed a non-empty hotspot set, a failing refresh sets the error string
but leaves the previously displayed hotspots in place, so the displayed
hotspot set is NOT the empty set. -/
theorem refresh_failure_nonempty_hotspots_counterexample :
    (applyFetch (applyFetch (initState none) (.success [⟨0, 0⟩] 10))
        (.failure "network error")).error = some "network error" ∧
      (applyFetch (applyFetch (initState none) (.success [⟨0, 0⟩] 10))
        (.failure "network error")).hotspots ≠ [] := by
  refine ⟨rfl, ?_⟩
  have h1 : cellIndex (getGridSize 10) ⟨0, 0⟩ = (0, 0) := by
    norm_num [cellIndex, getGridSize]
  simp [applyFetch, initState, aggregateToHotspots, buildCells, insertPoint, h1]

/-- C8 amended: whenever a refresh cycle fails (thrown error or
unconfigured database), the error string becomes visible, the
add-test-event button is disabled, and the displayed hotspot set is left
unchanged — hence it is empty whenever no refresh has succeeded since
mount, as in the configuration-failure scenario, but a previously
displayed non-empty set is retained; no failure is fatal: the state stays
well-defined and a later successful refresh proceeds normally. -/
theorem refresh_failure_effects (s : UIState) (msg : String)
    (initMsg ie : Option String) (results : List FetchResult)
    (hns : ∀ r ∈ results, r.isSuccess = false) (b : Bool)
    (points : List Point) (zoom : ℚ) :
    (applyFetch s (.failure msg)).error = some msg ∧
      addTestDisabled (applyFetch s (.failure msg)).error b = true ∧
      (applyFetch s (.failure msg)).hotspots = s.hotspots ∧
      ((applyFetch s (.notConfigured initMsg)).error).isSome = true ∧
      (applyFetch s (.notConfigured initMsg)).hotspots = s.hotspots ∧
      (results.foldl applyFetch (initState ie)).hotspots = [] ∧
      applyFetch (applyFetch s (.failure msg)) (.success points zoom) =
        ⟨aggregateToHotspots points zoom, none⟩ := by
  refine ⟨rfl, by simp [addTestDisabled, applyFetch], rfl, by simp [applyFetch],
    rfl, ?_, rfl⟩
  rw [foldl_no_success_hotspots results _ hns]
  rfl

/-- Witness for the amended C8: a concrete failure after mount and a
concrete success-free trace. -/
theorem refresh_failure_effects_witness :
    (applyFetch (initState none) (.failure "boom")).error = some "boom" ∧
      ([FetchResult.failure "x", FetchResult.notConfigured none].foldl applyFetch
        (initState none)).hotspots = [] := by
  obtain ⟨h1, _, _, _, _, h6, _⟩ :=
    refresh_failure_effects (initState none) "boom" none none
      [FetchResult.failure "x", FetchResult.notConfigured none]
      (by decide) false [] 10
  exact ⟨h1, h6⟩

end EventSparkMap
